import Mathlib

/-!
Verification of the voice management core of `api/src/inference/voice_manager.py`
(class `VoiceManager`): voice path resolution, the bounded insertion-ordered
voice cache, equal-weight voice combination (`load_voice` on "+"-joined names,
`combine_voices`) and weighted combination (`create_weighted_voice`,
`parse_voice_formula`).

Modelling choices:
- Voice tensors are modelled by their frame sequence as `List ℚ`
  (torch float arithmetic idealised over the rationals); an entry stands
  for one frame slice, so list length is the frame-dimension size.
- The filesystem of `.pt` voice files and the in-memory cache are association
  lists `List (String × Tensor)`; the cache list is kept in insertion order,
  exactly as a Python 3.7+ `dict` iterates.
- Python string primitives used by the source (`str.split`, `str.strip`,
  the `in` operator on a single character, `"+".join`, `float(...)`) are
  modelled by structural functions on `String.data` below.
- Fallible operations return `Except String α × St`: the raised exception
  message (or result) together with the state as left behind, since Python
  exceptions do not roll back prior mutation.
-/

namespace VoiceMgr

/-- Frame sequence of a voice tensor; torch float values idealised as ℚ. -/
abbrev Tensor := List ℚ

/-- Elementwise scaling, models `tensor * weight`. -/
def tscale (w : ℚ) (t : Tensor) : Tensor := t.map (fun x => w * x)

/-- Models Python `str.split(sep)` for a one-character separator on `List Char`:
always returns at least one (possibly empty) piece. -/
def pysplitAux (sep : Char) : List Char → List (List Char)
  | [] => [[]]
  | c :: rest =>
    let r := pysplitAux sep rest
    if c = sep then [] :: r
    else
      match r with
      | [] => [[c]]
      | g :: gs => (c :: g) :: gs

/-- Models Python `str.split(sep)` for a one-character separator. -/
def pysplit (sep : Char) (s : String) : List String :=
  (pysplitAux sep s.data).map (fun l => ⟨l⟩)

/-- Whitespace recognised by Python `str.strip()` (the characters the source
can actually meet in voice names and formulas). -/
def isSpaceChar (c : Char) : Bool :=
  c = ' ' || c = '\t' || c = '\n' || c = '\r'

/-- Models Python `str.strip()`. -/
def pystrip (s : String) : String :=
  ⟨((s.data.dropWhile isSpaceChar).reverse.dropWhile isSpaceChar).reverse⟩

/-- Models Python `c in s` for a single character. -/
def pycontains (s : String) (c : Char) : Bool := s.data.contains c

/-- Models Python `sep.join(parts)`. -/
def pyjoin (sep : String) : List String → String
  | [] => ""
  | [x] => x
  | x :: y :: rest => x ++ sep ++ pyjoin sep (y :: rest)

/-- Value of a run of decimal digits; `none` on a non-digit or an empty run. -/
def digitsToNat : List Char → Option Nat
  | [] => none
  | l =>
    l.foldl
      (fun acc c =>
        match acc with
        | none => none
        | some n => if c.isDigit then some (10 * n + (c.toNat - '0'.toNat)) else none)
      (some 0)

/-- Models Python `float(s)` on the decimal literals the formulas contain
(optional sign, digits, optional decimal point); `none` models the raised
`ValueError`. -/
def pyfloat (s : String) : Option ℚ :=
  let t := (pystrip s).data
  let signBody : ℚ × List Char :=
    match t with
    | '-' :: rest => (-1, rest)
    | '+' :: rest => (1, rest)
    | _ => (1, t)
  match (pysplitAux '.' signBody.2) with
  | [ip] => (digitsToNat ip).map (fun n => signBody.1 * (n : ℚ))
  | [ip, fp] =>
    match ip, fp with
    | [], [] => none
    | [], _ =>
      (digitsToNat fp).map (fun f => signBody.1 * ((f : ℚ) / (10 : ℚ) ^ fp.length))
    | _, [] => (digitsToNat ip).map (fun n => signBody.1 * (n : ℚ))
    | _, _ =>
      match digitsToNat ip, digitsToNat fp with
      | some n, some f =>
        some (signBody.1 * ((n : ℚ) + (f : ℚ) / (10 : ℚ) ^ fp.length))
      | _, _ => none
  | _ => none

/-- Models `torch.mean(torch.stack(ts), dim=0)`: `torch.stack` requires every
tensor to have equal size (else it raises), and the mean is taken over the
stacking dimension. There is no padding. -/
def stackMean (ts : List Tensor) : Option Tensor :=
  match ts with
  | [] => none
  | t :: rest =>
    if rest.all (fun u => u.length = t.length) then
      some
        ((rest.foldl (fun acc u => List.zipWith (fun x y => x + y) acc u) t).map
          (fun x => x / ((rest.length + 1 : Nat) : ℚ)))
    else none

instance {ε α : Type} [DecidableEq ε] [DecidableEq α] : DecidableEq (Except ε α) :=
  fun a b =>
    match a, b with
    | .error x, .error y =>
      if h : x = y then .isTrue (congrArg Except.error h)
      else .isFalse (fun hh => h (Except.error.inj hh))
    | .ok x, .ok y =>
      if h : x = y then .isTrue (congrArg Except.ok h)
      else .isFalse (fun hh => h (Except.ok.inj hh))
    | .error _, .ok _ => .isFalse (fun hh => Except.noConfusion hh)
    | .ok _, .error _ => .isFalse (fun hh => Except.noConfusion hh)

/-- Modelled from the spec: the `VoiceConfig` schema (`use_cache`, `cache_size`)
lives in `structures/model_schemas.py`, which is outside the provided sources;
only the two fields read by `VoiceManager` are modelled. -/
structure VoiceConfig where
  use_cache : Bool
  cache_size : Nat
deriving DecidableEq

/-- Modelled from the spec: the global `settings` object (`core/config.py`) is
outside the provided sources; only the fields read by `VoiceManager` are
modelled. -/
structure Settings where
  allow_local_voice_saving : Bool
  voices_dir : String
deriving DecidableEq

/-- Static environment of a `VoiceManager`: its config, the global settings,
and whether `torch.save` raises (models a disk failure during persistence). -/
structure Env where
  config : VoiceConfig
  settings : Settings
  save_fails : Bool
deriving DecidableEq

/-- Mutable world of a `VoiceManager`: the voice files on disk (name ↦ tensor
stored at `<voices_dir>/<name>.pt`), the insertion-ordered `_voice_cache`, and
a counter of storage reads (`paths.load_voice_tensor` calls) for observing
cache hits. -/
structure St where
  storage : List (String × Tensor)
  cache : List (String × Tensor)
  loadCount : Nat
deriving DecidableEq

/-- Python dict assignment `d[k] = v`: update in place when the key exists
(its iteration position is kept), else append at the end. -/
def dictInsert (l : List (String × Tensor)) (k : String) (v : Tensor) :
    List (String × Tensor) :=
  match l.lookup k with
  | some _ => l.map (fun p => if p.1 = k then (k, v) else p)
  | none => l ++ [(k, v)]

/-- Path of a voice file, `os.path.join(api_dir, settings.voices_dir, f"<name>.pt")`
with the constant `api_dir` prefix folded into `voices_dir`. -/
def voicePath (s : Settings) (voice_name : String) : String :=
  s.voices_dir ++ "/" ++ voice_name ++ ".pt"

/-- `VoiceManager.get_voice_path`: the path when the file exists, else `None`. -/
def get_voice_path (env : Env) (st : St) (voice_name : String) : Option String :=
  match st.storage.lookup voice_name with
  | some _ => some (voicePath env.settings voice_name)
  | none => none

/-- Cache key `f"{voice_path}_{device}"`. -/
def cacheKey (path device : String) : String := path ++ "_" ++ device

/-- Cache key of a voice name (path resolution composed with the key format). -/
def skey (env : Env) (device voice_name : String) : String :=
  cacheKey (voicePath env.settings voice_name) device

/-- `VoiceManager._manage_cache`: when the cache has reached `cache_size`,
delete `next(iter(cache))`, i.e. the insertion-oldest entry (the head of the
insertion-ordered list). With `cache_size = 0` and an empty cache the source
would raise `StopIteration`; no claim touches that configuration. -/
def manage_cache (env : Env) (c : List (String × Tensor)) : List (String × Tensor) :=
  if env.config.cache_size ≤ c.length then c.tail else c

/-- `VoiceManager.load_voice`, single-voice branch (source lines 69-91):
resolve the path, consult the cache (a hit returns the cached tensor and
changes nothing), else read from storage and, when caching is enabled, run
`_manage_cache` and insert under the path+device key. -/
def load_single (env : Env) (st : St) (voice_name device : String) :
    Except String Tensor × St :=
  match get_voice_path env st voice_name with
  | none => (.error ("Voice not found: " ++ voice_name), st)
  | some voice_path =>
    let ck := cacheKey voice_path device
    if env.config.use_cache then
      match st.cache.lookup ck with
      | some t => (.ok t, st)
      | none =>
        let voice := (st.storage.lookup voice_name).getD []
        (.ok voice,
          { st with
            loadCount := st.loadCount + 1,
            cache := dictInsert (manage_cache env st.cache) ck voice })
    else
      (.ok ((st.storage.lookup voice_name).getD []),
        { st with loadCount := st.loadCount + 1 })

/-- Loop of the combined branch of `load_voice`: load each constituent in
order, aborting at the first failure with the wrapping message
`Failed to load base voice <v>: <e>`. Each constituent came from a split on
"+" so contains no "+", hence the source's recursive `load_voice` call takes
the single-voice branch, modelled by `load_single` directly. -/
def loadParts (env : Env) (st : St) (voices : List String) (device : String) :
    Except String (List Tensor) × St :=
  match voices with
  | [] => (.ok [], st)
  | v :: rest =>
    match load_single env st v device with
    | (.error e, st1) => (.error ("Failed to load base voice " ++ v ++ ": " ++ e), st1)
    | (.ok t, st1) =>
      match loadParts env st1 rest device with
      | (.error e, st2) => (.error e, st2)
      | (.ok ts, st2) => (.ok (t :: ts), st2)

/-- Constituents of a combined voice request,
`[v.strip() for v in voice_name.split("+") if v.strip()]`. -/
def combinedParts (voice_name : String) : List String :=
  ((pysplit '+' voice_name).map pystrip).filter (fun v => v ≠ "")

/-- `VoiceManager.load_voice` (source lines 39-91): a name containing "+" is
split, stripped, filtered of empty pieces, its constituents loaded and
combined by `torch.mean(torch.stack(...), dim=0)`; otherwise the single-voice
branch runs. -/
def load_voice (env : Env) (st : St) (voice_name device : String) :
    Except String Tensor × St :=
  if pycontains voice_name '+' then
    if (combinedParts voice_name).length < 2 then
      (.error ("Invalid combined voice name: " ++ voice_name), st)
    else
      match loadParts env st (combinedParts voice_name) device with
      | (.error e, st1) => (.error e, st1)
      | (.ok ts, st1) =>
        match stackMean ts with
        | some t => (.ok t, st1)
        | none => (.error "stack expects each tensor to be equal size", st1)
  else load_single env st voice_name device

/-- `VoiceManager.combine_voices` (source lines 102-145): require at least two
names, build the "+"-joined name; only when `allow_local_voice_saving` is set,
try to load the combined voice, save it to disk and cache it under a
path-based key (without any `_manage_cache` call) — any failure inside that
block is logged and swallowed. The joined name is returned in every
non-raising path. -/
def combine_voices (env : Env) (st : St) (voices : List String) (device : String) :
    Except String String × St :=
  if voices.length < 2 then
    (.error "At least 2 voices are required for combination", st)
  else
    let combined_name := pyjoin "+" voices
    if env.settings.allow_local_voice_saving then
      match load_voice env st combined_name device with
      | (.error _, st1) => (.ok combined_name, st1)
      | (.ok combined_tensor, st1) =>
        if env.save_fails then (.ok combined_name, st1)
        else
          (.ok combined_name,
            { st1 with
              storage := dictInsert st1.storage combined_name combined_tensor,
              cache := dictInsert st1.cache
                (cacheKey (voicePath env.settings combined_name) device) combined_tensor })
    else (.ok combined_name, st)

/-- Loop of `parse_voice_formula` over the "+"-separated pieces: each piece is
stripped and split on "*" into exactly a weight and a name (any other arity is
the tuple-unpacking `ValueError`); the weight goes through `float(...)` (a
parse failure is its `ValueError`), the name through `strip()`. -/
def parsePieces : List String → Except String (List (ℚ × String))
  | [] => .ok []
  | piece :: rest =>
    match pysplit '*' (pystrip piece) with
    | [w, v] =>
      match pyfloat w with
      | none => .error ("could not convert string to float: " ++ w)
      | some wq =>
        match parsePieces rest with
        | .error e => .error e
        | .ok ps => .ok ((wq, pystrip v) :: ps)
    | parts =>
      if parts.length < 2 then .error "not enough values to unpack"
      else .error "too many values to unpack"

/-- `VoiceManager.parse_voice_formula` (source lines 269-283). -/
def parse_voice_formula (formula : String) : Except String (List (ℚ × String)) :=
  parsePieces (pysplit '+' formula)

/-- Main loop of `create_weighted_voice` (source lines 221-242): for each
(weight, name) pair load the base voice, extend the "+"-joined name, and
accumulate `weighted_sum += base_voice * weight` (the first pair initialises
it with a scaled clone; torch raises on a frame-length mismatch) and
`total_weight += weight`. -/
def accumulate (env : Env) (st : St) (pairs : List (ℚ × String)) (device : String)
    (combined_name : String) (weighted_sum : Option Tensor) (total_weight : ℚ) :
    Except String (String × Option Tensor × ℚ) × St :=
  match pairs with
  | [] => (.ok (combined_name, weighted_sum, total_weight), st)
  | (weight, voice_name) :: rest =>
    match load_voice env st voice_name device with
    | (.error e, st1) => (.error e, st1)
    | (.ok base_voice, st1) =>
      let combined_name :=
        if combined_name = "" then voice_name else combined_name ++ "+" ++ voice_name
      match weighted_sum with
      | none =>
        accumulate env st1 rest device combined_name
          (some (tscale weight base_voice)) (total_weight + weight)
      | some ws =>
        if ws.length = base_voice.length then
          accumulate env st1 rest device combined_name
            (some (List.zipWith (fun x y => x + y) ws (tscale weight base_voice)))
            (total_weight + weight)
        else
          (.error "The size of tensor a must match the size of tensor b", st1)

/-- `VoiceManager.create_weighted_voice` (source lines 185-264): parse the
formula, reject the first non-positive weight (`Invalid weight ... for voice
<name>.`, with the offending weight value interpolated in the source message),
reject an empty pair list, run the accumulation loop, divide by the total
weight when `normalize` is set and the total is nonzero, and — when local
saving is enabled — save the result to `<voices_dir>/<formula>.pt` (a save
failure is logged and swallowed; nothing is inserted into the cache on this
path). Returns the "+"-joined name of the constituents. -/
def create_weighted_voice (env : Env) (st : St) (formula : String)
    (normalize : Bool) (device : String) : Except String String × St :=
  match parse_voice_formula formula with
  | .error e => (.error e, st)
  | .ok pairs =>
    match pairs.find? (fun p => p.1 ≤ 0) with
    | some p => (.error ("Invalid weight for voice " ++ p.2 ++ "."), st)
    | none =>
      if pairs.isEmpty then (.error "No valid weighted voices found in formula.", st)
      else
        match accumulate env st pairs device "" none 0 with
        | (.error e, st1) => (.error e, st1)
        | (.ok (combined_name, weighted_sum, total_weight), st1) =>
          match weighted_sum with
          | none => (.error "No voices were combined. Check the formula syntax.", st1)
          | some ws =>
            let ws :=
              if normalize ∧ total_weight ≠ 0 then ws.map (fun x => x / total_weight)
              else ws
            if env.settings.allow_local_voice_saving then
              if env.save_fails then (.ok combined_name, st1)
              else (.ok combined_name, { st1 with storage := dictInsert st1.storage formula ws })
            else (.ok combined_name, st1)

/-! Concrete fixtures used by witnesses and counterexamples, and the
sequential-load helper. -/

/-- A capacity-10 caching configuration with local saving enabled. -/
def envBig : Env :=
  { config := { use_cache := true, cache_size := 10 },
    settings := { allow_local_voice_saving := true, voices_dir := "voices" },
    save_fails := false }

/-- A store holding the single voice `b`. -/
def stOnlyB : St := { storage := [("b", [1])], cache := [], loadCount := 0 }

/-- A store holding voices `a` and `b`, with `a` also cached under a stale
tensor to make cache hits observable. -/
def stCached : St :=
  { storage := [("a", [1]), ("b", [2])],
    cache := [("voices/a.pt_cpu", [5])],
    loadCount := 0 }

/-- An empty world. -/
def stEmpty : St := { storage := [], cache := [], loadCount := 0 }

/-- Environment whose `torch.save` always fails. -/
def envFailSave : Env :=
  { config := { use_cache := true, cache_size := 10 },
    settings := { allow_local_voice_saving := true, voices_dir := "voices" },
    save_fails := true }

/-- Store with two zero-frame voices (their tensors are empty, so combining
them involves no arithmetic). -/
def stTwoVoices : St := { storage := [("a", []), ("b", [])], cache := [], loadCount := 0 }

/-- State after loading both `a` and `b` from `stTwoVoices` with caching. -/
def stTwoLoaded : St :=
  { storage := [("a", []), ("b", [])],
    cache := [("voices/a.pt_cpu", []), ("voices/b.pt_cpu", [])],
    loadCount := 2 }

/-- State after loading only `a` from `stTwoVoices` with caching. -/
def stOneLoaded : St :=
  { storage := [("a", []), ("b", [])],
    cache := [("voices/a.pt_cpu", [])],
    loadCount := 1 }

/-- Store with two voices of different frame lengths. -/
def stDiffLen : St := { storage := [("a", [0]), ("b", [0, 0])], cache := [], loadCount := 0 }

/-- State after loading `a` and `b` from `stDiffLen` with caching enabled. -/
def stDiffLenLoaded : St :=
  { storage := [("a", [0]), ("b", [0, 0])],
    cache := [("voices/a.pt_cpu", [0]), ("voices/b.pt_cpu", [0, 0])],
    loadCount := 2 }

/-- Capacity-1 caching environment. -/
def envTiny : Env :=
  { config := { use_cache := true, cache_size := 1 },
    settings := { allow_local_voice_saving := true, voices_dir := "voices" },
    save_fails := false }

/-- Sequential loads: fold `load_voice`, keeping only the state. -/
def loadSeq (env : Env) (st : St) (names : List String) (device : String) : St :=
  names.foldl (fun s n => (load_voice env s n device).2) st

/-! Association-list lemmas for the cache and the on-disk store. -/

theorem lookup_none_iff (l : List (String × Tensor)) (k : String) :
    l.lookup k = none ↔ k ∉ l.map Prod.fst := by
  rw [List.lookup_eq_none_iff]
  constructor
  · intro h hmem
    obtain ⟨p, hp, hpk⟩ := List.mem_map.mp hmem
    have hne := h p hp
    rw [bne_iff_ne] at hne
    exact hne hpk.symm
  · intro h p hp
    rw [bne_iff_ne]
    intro hk
    exact h (List.mem_map.mpr ⟨p, hp, hk.symm⟩)

theorem lookup_append_left_none (l₁ l₂ : List (String × Tensor)) (k : String)
    (h : l₁.lookup k = none) : (l₁ ++ l₂).lookup k = l₂.lookup k := by
  rw [List.lookup_append, h]
  rfl

theorem lookup_append_right (l₁ l₂ : List (String × Tensor)) (k : String) (w : Tensor)
    (h : l₁.lookup k = some w) : (l₁ ++ l₂).lookup k = some w := by
  rw [List.lookup_append, h]
  rfl

theorem dictInsert_of_lookup_none (l : List (String × Tensor)) (k : String) (v : Tensor)
    (h : l.lookup k = none) : dictInsert l k v = l ++ [(k, v)] := by
  simp [dictInsert, h]

theorem lookup_update_self (l : List (String × Tensor)) (k : String) (v : Tensor) :
    (l.map (fun p => if p.1 = k then (k, v) else p)).lookup k =
      (l.lookup k).map (fun _ => v) := by
  induction l with
  | nil => simp
  | cons p rest ih =>
    obtain ⟨a, b⟩ := p
    by_cases h : a = k
    · subst h
      simp
    · have hb : (k == a) = false := beq_eq_false_iff_ne.mpr (fun hh => h hh.symm)
      simp only [List.map_cons, if_neg h, List.lookup_cons, hb]
      exact ih

theorem lookup_dictInsert_self (l : List (String × Tensor)) (k : String) (v : Tensor) :
    (dictInsert l k v).lookup k = some v := by
  unfold dictInsert
  cases hl : l.lookup k with
  | none =>
    rw [lookup_append_left_none l _ k hl]
    simp
  | some w =>
    rw [lookup_update_self]
    simp [hl]

theorem keys_update (l : List (String × Tensor)) (k : String) (v : Tensor) :
    (l.map (fun p => if p.1 = k then (k, v) else p)).map Prod.fst = l.map Prod.fst := by
  induction l with
  | nil => simp
  | cons p rest ih =>
    obtain ⟨a, b⟩ := p
    by_cases h : a = k
    · subst h
      simp [ih]
    · simp only [List.map_cons, if_neg h]
      rw [ih]

theorem keys_dictInsert_some (l : List (String × Tensor)) (k : String) (v w : Tensor)
    (h : l.lookup k = some w) :
    (dictInsert l k v).map Prod.fst = l.map Prod.fst := by
  unfold dictInsert
  rw [h]
  exact keys_update l k v

theorem length_dictInsert_some (l : List (String × Tensor)) (k : String) (v w : Tensor)
    (h : l.lookup k = some w) : (dictInsert l k v).length = l.length := by
  simp [dictInsert, h]

theorem length_dictInsert_none (l : List (String × Tensor)) (k : String) (v : Tensor)
    (h : l.lookup k = none) : (dictInsert l k v).length = l.length + 1 := by
  simp [dictInsert, h]

theorem nodup_dictInsert (l : List (String × Tensor)) (k : String) (v : Tensor)
    (h : (l.map Prod.fst).Nodup) : ((dictInsert l k v).map Prod.fst).Nodup := by
  cases hl : l.lookup k with
  | none =>
    rw [dictInsert_of_lookup_none l k v hl]
    have hk : k ∉ l.map Prod.fst := (lookup_none_iff l k).mp hl
    simp [List.nodup_append, h, hk]
  | some w =>
    rw [keys_dictInsert_some l k v w hl]
    exact h

/-! State-shape lemmas: the load operations never touch the on-disk store. -/

theorem load_single_storage (env : Env) (st : St) (n d : String) :
    ((load_single env st n d).2).storage = st.storage := by
  unfold load_single
  cases hp : get_voice_path env st n with
  | none => rfl
  | some path =>
    simp only
    cases hu : env.config.use_cache with
    | false => simp
    | true =>
      cases hc : st.cache.lookup (cacheKey path d) with
      | some t => simp [hc]
      | none => simp [hc]

theorem loadParts_storage (env : Env) (d : String) :
    ∀ (voices : List String) (st : St),
      ((loadParts env st voices d).2).storage = st.storage := by
  intro voices
  induction voices with
  | nil => intro st; rfl
  | cons v rest ih =>
    intro st
    unfold loadParts
    cases h1 : load_single env st v d with
    | mk r1 st1 =>
      have hs1 : st1.storage = st.storage := by
        have := load_single_storage env st v d
        rw [h1] at this
        exact this
      cases r1 with
      | error e => simpa using hs1
      | ok t =>
        simp only
        cases h2 : loadParts env st1 rest d with
        | mk r2 st2 =>
          have hs2 : st2.storage = st1.storage := by
            have := ih st1
            rw [h2] at this
            exact this
          cases r2 <;> simp [hs2, hs1]

theorem load_voice_storage (env : Env) (st : St) (n d : String) :
    ((load_voice env st n d).2).storage = st.storage := by
  unfold load_voice
  cases hpc : pycontains n '+' with
  | false => simpa using load_single_storage env st n d
  | true =>
    by_cases hlen : (combinedParts n).length < 2
    · simp [hlen]
    · rw [if_pos rfl, if_neg hlen]
      cases h : loadParts env st (combinedParts n) d with
      | mk r st1 =>
        have hs : st1.storage = st.storage := by
          have := loadParts_storage env d (combinedParts n) st
          rw [h] at this
          exact this
        cases r with
        | error e => simpa using hs
        | ok ts =>
          simp only
          cases stackMean ts <;> simpa using hs

theorem accumulate_storage (env : Env) (d : String) :
    ∀ (pairs : List (ℚ × String)) (st : St) (nm : String) (ws : Option Tensor) (tw : ℚ),
      ((accumulate env st pairs d nm ws tw).2).storage = st.storage := by
  intro pairs
  induction pairs with
  | nil => intro st nm ws tw; rfl
  | cons p rest ih =>
    intro st nm ws tw
    unfold accumulate
    cases h1 : load_voice env st p.2 d with
    | mk r1 st1 =>
      have hs1 : st1.storage = st.storage := by
        have := load_voice_storage env st p.2 d
        rw [h1] at this
        exact this
      cases r1 with
      | error e => simpa using hs1
      | ok t =>
        simp only
        cases ws with
        | none => rw [ih st1]; exact hs1
        | some w =>
          dsimp only
          by_cases hlen : w.length = t.length
          · rw [if_pos hlen, ih st1]; exact hs1
          · rw [if_neg hlen]; simpa using hs1

/-- Claim C5: with caching enabled, loading a (name, device) whose key is
present in the cache returns the cached tensor and leaves the whole state
unchanged — no storage read (`loadCount` stays), no promotion or reordering
of the cache. -/
theorem c5_cache_hit (env : Env) (st : St) (voice_name device path : String) (t : Tensor)
    (hplus : pycontains voice_name '+' = false)
    (hcache : env.config.use_cache = true)
    (hpath : get_voice_path env st voice_name = some path)
    (hhit : st.cache.lookup (cacheKey path device) = some t) :
    load_voice env st voice_name device = (.ok t, st) := by
  unfold load_voice
  rw [hplus]
  simp only [Bool.false_eq_true, if_false]
  unfold load_single
  rw [hpath]
  simp only [hcache, if_true, hhit]

/-- Witness for C5: the cached (stale) tensor `[5]` is returned for `a`, not
the stored `[1]`, and the state is untouched. -/
theorem c5_cache_hit_witness :
    load_voice envBig stCached "a" "cpu" = (.ok [5], stCached) :=
  c5_cache_hit envBig stCached "a" "cpu" "voices/a.pt" [5]
    (by decide) rfl (by decide) (by decide)

/-- Claim C8 (amended): loading a single voice whose file does not exist fails
with exactly `Voice not found: <name>` — the requested name only — and leaves
the state unchanged; the message does not enumerate the available voices and
there is no version parameter anywhere in the interface. -/
theorem c8_voice_not_found (env : Env) (st : St) (voice_name device : String)
    (hplus : pycontains voice_name '+' = false)
    (hmiss : st.storage.lookup voice_name = none) :
    load_voice env st voice_name device =
      (.error ("Voice not found: " ++ voice_name), st) := by
  unfold load_voice
  rw [hplus]
  simp only [Bool.false_eq_true, if_false]
  unfold load_single get_voice_path
  rw [hmiss]

/-- Witness for C8 (amended): requesting the absent voice `a`. -/
theorem c8_voice_not_found_witness :
    load_voice envBig stOnlyB "a" "cpu" = (.error ("Voice not found: " ++ "a"), stOnlyB) :=
  c8_voice_not_found envBig stOnlyB "a" "cpu" (by decide) (by decide)

/-- Counterexample for C8 as stated: with `b` the only available voice, the
failure message for the unknown voice `a` is exactly `Voice not found: a`; it
does not mention `b` (it contains no character `b` at all), so it does not
report the set of currently available voice names. -/
theorem c8_message_counterexample :
    (load_voice envBig stOnlyB "a" "cpu").1 = .error "Voice not found: a"
    ∧ stOnlyB.storage.map Prod.fst = ["b"]
    ∧ ("Voice not found: a").data.contains 'b' = false := by
  refine ⟨?_, ?_, ?_⟩ <;> decide

/-- Claim C9: with local voice saving disabled, `combine_voices` on two or
more names returns the "+"-joined name with the state completely untouched:
no voice is resolved, loaded or validated and the cache is not consulted, so
the call succeeds even when every named voice is nonexistent. -/
theorem c9_combine_no_save (env : Env) (st : St) (voices : List String) (device : String)
    (hs : env.settings.allow_local_voice_saving = false)
    (hlen : 2 ≤ voices.length) :
    combine_voices env st voices device = (.ok (pyjoin "+" voices), st) := by
  unfold combine_voices
  rw [if_neg (by omega), hs]
  simp

/-- Witness for C9: combining two nonexistent voices over an empty store with
saving disabled succeeds and changes nothing. -/
theorem c9_combine_no_save_witness :
    combine_voices
      { envBig with settings := { allow_local_voice_saving := false, voices_dir := "voices" } }
      stEmpty ["ghost1", "ghost2"] "cpu" = (.ok "ghost1+ghost2", stEmpty) :=
  c9_combine_no_save _ stEmpty ["ghost1", "ghost2"] "cpu" rfl (by decide)

/-- Claim C6: a formula with a non-positive weight makes
`create_weighted_voice` fail with the invalid-weight `ValueError` before any
voice is loaded — the state (cache, store, load counter) is exactly the input
state; and when the formula has no valid pair at all (it fails to parse), the
call fails the same way, with the parse `ValueError` and the state unchanged. -/
theorem c6_invalid_weight (env : Env) (st : St) (formula device : String) (normalize : Bool) :
    (∀ pairs p, parse_voice_formula formula = .ok pairs →
        pairs.find? (fun q => q.1 ≤ 0) = some p →
        create_weighted_voice env st formula normalize device =
          (.error ("Invalid weight for voice " ++ p.2 ++ "."), st))
    ∧ (∀ e, parse_voice_formula formula = .error e →
        create_weighted_voice env st formula normalize device = (.error e, st)) := by
  constructor
  · intro pairs p hp hfind
    unfold create_weighted_voice
    rw [hp]
    dsimp only
    rw [hfind]
  · intro e he
    unfold create_weighted_voice
    rw [he]

/-- Witness for C6: the formula from the spec, `-1 * A + 2 * B`, is rejected
with the state untouched. -/
theorem c6_invalid_weight_witness :
    create_weighted_voice envBig stEmpty "-1 * A + 2 * B" false "cpu" =
      (.error ("Invalid weight for voice " ++ "A" ++ "."), stEmpty) :=
  (c6_invalid_weight envBig stEmpty "-1 * A + 2 * B" "cpu" false).1
    [(-1, "A"), (2, "B")] (-1, "A")
    (by simp [parse_voice_formula, parsePieces, pysplit, pysplitAux, pystrip, pyfloat,
      digitsToNat, isSpaceChar])
    (by simp [List.find?])

/-- Claim C7: when saving a combined voice to disk fails (`save_fails`), both
`combine_voices` and `create_weighted_voice` swallow the failure: each still
succeeds and returns the combined name, and nothing is persisted (the on-disk
store is exactly as before, so a later request recombines on demand). -/
theorem c7_save_failure_swallowed (env : Env) (st : St)
    (hsave : env.settings.allow_local_voice_saving = true)
    (hfail : env.save_fails = true) :
    (∀ (voices : List String) (device : String) (t : Tensor) (st1 : St),
        2 ≤ voices.length →
        load_voice env st (pyjoin "+" voices) device = (.ok t, st1) →
        combine_voices env st voices device = (.ok (pyjoin "+" voices), st1)
        ∧ st1.storage = st.storage)
    ∧ (∀ (formula device cn : String) (normalize : Bool)
        (pairs : List (ℚ × String)) (ws : Tensor) (tw : ℚ) (st2 : St),
        parse_voice_formula formula = .ok pairs →
        pairs.find? (fun q => q.1 ≤ 0) = none →
        pairs ≠ [] →
        accumulate env st pairs device "" none 0 = (.ok (cn, some ws, tw), st2) →
        create_weighted_voice env st formula normalize device = (.ok cn, st2)
        ∧ st2.storage = st.storage) := by
  constructor
  · intro voices device t st1 hlen hload
    have hst : st1.storage = st.storage := by
      have h := load_voice_storage env st (pyjoin "+" voices) device
      rw [hload] at h
      exact h
    refine ⟨?_, hst⟩
    unfold combine_voices
    rw [if_neg (by omega), hsave]
    simp only [if_true]
    rw [hload]
    dsimp only
    rw [hfail]
    simp
  · intro formula device cn normalize pairs ws tw st2 hp hfind hne hacc
    have hst : st2.storage = st.storage := by
      have h := accumulate_storage env device pairs st "" none 0
      rw [hacc] at h
      exact h
    refine ⟨?_, hst⟩
    unfold create_weighted_voice
    rw [hp]
    dsimp only
    rw [hfind]
    have hpe : pairs.isEmpty = false := by
      cases pairs with
      | nil => exact absurd rfl hne
      | cons a l => rfl
    rw [hpe]
    simp only [Bool.false_eq_true, if_false]
    rw [hacc]
    dsimp only
    rw [hsave, hfail]
    simp

/-- Witness for C7: with failing saves, `combine_voices ["a", "b"]` still
returns `a+b` and `create_weighted_voice "1 * a"` still returns `a`; neither
writes to the store. -/
theorem c7_save_failure_swallowed_witness :
    (combine_voices envFailSave stTwoVoices ["a", "b"] "cpu" = (.ok "a+b", stTwoLoaded)
      ∧ stTwoLoaded.storage = stTwoVoices.storage)
    ∧ (create_weighted_voice envFailSave stTwoVoices "1 * a" false "cpu" =
        (.ok "a", stOneLoaded)
      ∧ stOneLoaded.storage = stTwoVoices.storage) :=
  ⟨(c7_save_failure_swallowed envFailSave stTwoVoices rfl rfl).1 ["a", "b"] "cpu" [] stTwoLoaded
      (by decide) (by decide),
   (c7_save_failure_swallowed envFailSave stTwoVoices rfl rfl).2 "1 * a" "cpu" "a" false
      [(1, "a")] [] (0 + 1) stOneLoaded
      (by simp [parse_voice_formula, parsePieces, pysplit, pysplitAux, pystrip, pyfloat,
        digitsToNat, isSpaceChar])
      (by
        have h1 : ¬ ((1 : ℚ) ≤ 0) := by simp
        simp [List.find?, h1])
      (by decide) rfl⟩

/-! Arithmetic helpers for the weighted-combination claims. -/

theorem zipWith_tscale (w1 w2 : ℚ) :
    ∀ (a b : Tensor),
      List.zipWith (fun x y => x + y) (tscale w1 a) (tscale w2 b) =
        List.zipWith (fun x y => w1 * x + w2 * y) a b := by
  intro a
  induction a with
  | nil => intro b; rfl
  | cons x xs ih =>
    intro b
    cases b with
    | nil => rfl
    | cons y ys => simp [tscale, ih ys]

theorem tscale_div_self (w : ℚ) (t : Tensor) (hw : w ≠ 0) :
    (tscale w t).map (fun x => x / w) = t := by
  unfold tscale
  rw [List.map_map]
  have hfun : ((fun x => x / w) ∘ fun x => w * x) = id := by
    funext x
    simp only [Function.comp, id]
    exact mul_div_cancel_left₀ x hw
  rw [hfun, List.map_id]

/-- Claim C10: a formula parsing to exactly one pair with a strictly positive
weight is accepted: `create_weighted_voice` succeeds, returns that single
voice's name, and persists under the formula key the weight-scaled copy of
the voice tensor (scaled back to the original when `normalize` divides by the
total weight, which is the single weight itself). -/
theorem c10_single_pair_formula (env : Env) (st st1 : St)
    (formula voice_name device : String) (w : ℚ) (t : Tensor) (normalize : Bool)
    (hp : parse_voice_formula formula = .ok [(w, voice_name)])
    (hw : 0 < w)
    (hload : load_voice env st voice_name device = (.ok t, st1))
    (hsave : env.settings.allow_local_voice_saving = true)
    (hnf : env.save_fails = false) :
    create_weighted_voice env st formula normalize device =
      (.ok voice_name,
        { st1 with
          storage := dictInsert st1.storage formula
            (if normalize then t else tscale w t) })
    ∧ ((create_weighted_voice env st formula normalize device).2).storage.lookup formula =
        some (if normalize then t else tscale w t) := by
  have hwne : w ≠ 0 := ne_of_gt hw
  have hfind : List.find? (fun q => q.1 ≤ 0) [(w, voice_name)] = none := by
    simp [List.find?, decide_eq_false (not_le.mpr hw)]
  have hmain : create_weighted_voice env st formula normalize device =
      (.ok voice_name,
        { st1 with
          storage := dictInsert st1.storage formula
            (if normalize then t else tscale w t) }) := by
    unfold create_weighted_voice
    rw [hp]
    dsimp only
    rw [hfind]
    dsimp only [List.isEmpty]
    simp only [Bool.false_eq_true, if_false]
    unfold accumulate
    rw [hload]
    dsimp only
    rw [if_pos rfl]
    unfold accumulate
    dsimp only
    have hcond : (normalize = true ∧ (0 : ℚ) + w ≠ 0) ↔ normalize = true := by
      constructor
      · exact fun h => h.1
      · intro h
        refine ⟨h, ?_⟩
        rw [zero_add]
        exact hwne
    cases normalize with
    | true =>
      rw [if_pos (hcond.mpr rfl)]
      rw [hsave]
      simp only [if_true]
      rw [hnf]
      simp only [Bool.false_eq_true, if_false, if_true]
      have : List.map (fun x => x / ((0 : ℚ) + w)) (tscale w t) = t := by
        rw [zero_add]
        exact tscale_div_self w t hwne
      rw [this]
    | false =>
      rw [hsave]
      simp only [if_true]
      rw [hnf]
      simp only [Bool.false_eq_true, if_false]
      simp
  refine ⟨hmain, ?_⟩
  rw [hmain]
  exact lookup_dictInsert_self st1.storage formula _

/-- Witness for C10: the single-pair formula `2 * a` is accepted, returns
`a`, and saves the (empty-frame) scaled tensor under the formula key. -/
theorem c10_single_pair_formula_witness :
    create_weighted_voice envBig stTwoVoices "2 * a" false "cpu" =
      (.ok "a",
        { storage := [("a", []), ("b", []), ("2 * a", [])],
          cache := [("voices/a.pt_cpu", [])],
          loadCount := 1 })
    ∧ ((create_weighted_voice envBig stTwoVoices "2 * a" false "cpu").2).storage.lookup
        "2 * a" = some [] :=
  c10_single_pair_formula envBig stTwoVoices stOneLoaded "2 * a" "a" "cpu" 2 [] false
    (by simp [parse_voice_formula, parsePieces, pysplit, pysplitAux, pystrip, pyfloat,
      digitsToNat, isSpaceChar])
    (by simp) (by decide) rfl rfl

/-- Claim C4: a two-pair formula such as `2 * A + 3 * B` makes
`create_weighted_voice` compute the weight-scaled sum of the two tensors in
formula order, divided by the sum of the weights exactly when `normalize` is
requested; the result is persisted under the formula key and the "+"-joined
name is returned. -/
theorem c4_weighted_formula (env : Env) (st st1 st2 : St)
    (formula nameA nameB device : String) (w1 w2 : ℚ) (tA tB : Tensor) (normalize : Bool)
    (hp : parse_voice_formula formula = .ok [(w1, nameA), (w2, nameB)])
    (hw1 : 0 < w1) (hw2 : 0 < w2)
    (hne : nameA ≠ "")
    (hA : load_voice env st nameA device = (.ok tA, st1))
    (hB : load_voice env st1 nameB device = (.ok tB, st2))
    (hlen : tA.length = tB.length)
    (hsave : env.settings.allow_local_voice_saving = true)
    (hnf : env.save_fails = false) :
    create_weighted_voice env st formula normalize device =
      (.ok (nameA ++ "+" ++ nameB),
        { st2 with
          storage := dictInsert st2.storage formula
            (if normalize
              then (List.zipWith (fun x y => w1 * x + w2 * y) tA tB).map
                (fun x => x / (w1 + w2))
              else List.zipWith (fun x y => w1 * x + w2 * y) tA tB) })
    ∧ ((create_weighted_voice env st formula normalize device).2).storage.lookup formula =
        some (if normalize
             then (List.zipWith (fun x y => w1 * x + w2 * y) tA tB).map
                    (fun x => x / (w1 + w2))
             else List.zipWith (fun x y => w1 * x + w2 * y) tA tB) := by
  have hsum : (0 : ℚ) < w1 + w2 := add_pos hw1 hw2
  have hfind : List.find? (fun q => q.1 ≤ 0) [(w1, nameA), (w2, nameB)] = none := by
    simp [List.find?, decide_eq_false (not_le.mpr hw1), decide_eq_false (not_le.mpr hw2)]
  have hmain : create_weighted_voice env st formula normalize device =
      (.ok (nameA ++ "+" ++ nameB),
        { st2 with
          storage := dictInsert st2.storage formula
            (if normalize
              then (List.zipWith (fun x y => w1 * x + w2 * y) tA tB).map
                (fun x => x / (w1 + w2))
              else List.zipWith (fun x y => w1 * x + w2 * y) tA tB) }) := by
    unfold create_weighted_voice
    rw [hp]
    dsimp only
    rw [hfind]
    dsimp only [List.isEmpty]
    simp only [Bool.false_eq_true, if_false]
    unfold accumulate
    rw [hA]
    dsimp only
    rw [if_pos rfl]
    unfold accumulate
    rw [hB]
    dsimp only
    rw [if_neg hne]
    have hlen2 : (tscale w1 tA).length = tB.length := by simp [tscale, hlen]
    rw [if_pos hlen2]
    unfold accumulate
    dsimp only
    rw [zipWith_tscale w1 w2 tA tB, zero_add]
    cases normalize with
    | true =>
      have hcnd : true = true ∧ w1 + w2 ≠ 0 := ⟨rfl, ne_of_gt hsum⟩
      rw [if_pos hcnd]
      rw [hsave]
      simp only [if_true]
      rw [hnf]
      simp only [Bool.false_eq_true, if_false, if_true]
    | false =>
      rw [hsave]
      simp only [if_true]
      rw [hnf]
      simp only [Bool.false_eq_true, if_false]
      simp
  refine ⟨hmain, ?_⟩
  rw [hmain]
  exact lookup_dictInsert_self st2.storage formula _

/-- Witness for C4: the spec's formula shape `2 * a + 3 * b` with
`normalize = true`, over two zero-frame voices. -/
theorem c4_weighted_formula_witness :
    create_weighted_voice envBig stTwoVoices "2 * a + 3 * b" true "cpu" =
      (.ok "a+b",
        { storage := [("a", []), ("b", []), ("2 * a + 3 * b", [])],
          cache := [("voices/a.pt_cpu", []), ("voices/b.pt_cpu", [])],
          loadCount := 2 })
    ∧ ((create_weighted_voice envBig stTwoVoices "2 * a + 3 * b" true "cpu").2).storage.lookup
        "2 * a + 3 * b" = some [] :=
  c4_weighted_formula envBig stTwoVoices stOneLoaded stTwoLoaded "2 * a + 3 * b" "a" "b"
    "cpu" 2 3 [] [] true
    (by simp [parse_voice_formula, parsePieces, pysplit, pysplitAux, pystrip, pyfloat,
      digitsToNat, isSpaceChar])
    (by simp) (by simp) (by decide) (by decide) (by decide) rfl rfl rfl

/-- Claim C3 (amended): `load_voice` on a two-constituent combined name does
not pad: when the two loaded tensors have different frame lengths the
`torch.stack` call fails (its tensors must be of equal size), and only for
equal lengths does it produce the elementwise equal-weight mean. -/
theorem c3_combine_lengths (env : Env) (st st1 : St) (voice_name a b device : String)
    (ta tb : Tensor)
    (hpc : pycontains voice_name '+' = true)
    (hparts : combinedParts voice_name = [a, b])
    (hload : loadParts env st [a, b] device = (.ok [ta, tb], st1)) :
    (ta.length ≠ tb.length →
      load_voice env st voice_name device =
        (.error "stack expects each tensor to be equal size", st1))
    ∧ (ta.length = tb.length →
      load_voice env st voice_name device =
        (.ok ((List.zipWith (fun x y => x + y) ta tb).map (fun x => x / 2)), st1)) := by
  have hcommon : ∀ r : Except String Tensor,
      (match stackMean [ta, tb] with
        | some t => (Except.ok t, st1)
        | none => (Except.error "stack expects each tensor to be equal size", st1)) = (r, st1) →
      load_voice env st voice_name device = (r, st1) := by
    intro r hr
    unfold load_voice
    rw [hpc]
    simp only [if_true]
    rw [hparts]
    simp only [List.length_cons, List.length_nil]
    rw [if_neg (by omega)]
    rw [hload]
    exact hr
  constructor
  · intro hne
    have hall : List.all [tb] (fun u => u.length = ta.length) = false := by
      simp only [List.all_cons, List.all_nil, Bool.and_true]
      exact decide_eq_false (fun hh => hne hh.symm)
    have hsm : stackMean [ta, tb] = none := by
      unfold stackMean
      dsimp only
      rw [hall]
      simp
    refine hcommon _ ?_
    rw [hsm]
  · intro heq
    have hall : List.all [tb] (fun u => u.length = ta.length) = true := by
      simp only [List.all_cons, List.all_nil, Bool.and_true]
      exact decide_eq_true heq.symm
    have hsm : stackMean [ta, tb] =
        some ((List.zipWith (fun x y => x + y) ta tb).map (fun x => x / 2)) := by
      unfold stackMean
      dsimp only
      rw [hall]
      simp only [if_true, List.foldl_cons, List.foldl_nil, List.length_cons,
        List.length_nil]
      norm_num
    refine hcommon _ ?_
    rw [hsm]

/-- Counterexample for C3 as stated: combining the 1-frame voice `a` with the
2-frame voice `b` does not produce a padded 2-frame average - it fails with
the `torch.stack` size error. -/
theorem c3_padding_counterexample :
    ((stDiffLen.storage.lookup "a").getD []).length = 1
    ∧ ((stDiffLen.storage.lookup "b").getD []).length = 2
    ∧ (load_voice envBig stDiffLen "a+b" "cpu").1 =
        .error "stack expects each tensor to be equal size" := by
  refine ⟨?_, ?_, ?_⟩ <;> decide

/-- Witness for C3 (amended): on the different-length pair the combined load
fails with the stack size error, leaving the state as the constituent loads
left it. -/
theorem c3_combine_lengths_witness :
    load_voice envBig stDiffLen "a+b" "cpu" =
      (.error "stack expects each tensor to be equal size", stDiffLenLoaded) :=
  (c3_combine_lengths envBig stDiffLen stDiffLenLoaded "a+b" "a" "b" "cpu" [0] [0, 0]
    (by decide) (by decide) (by decide)).1 (by decide)

/-! Cache-invariant lemmas for C2: bounded size and unique keys. -/

theorem lookup_tail_none (l : List (String × Tensor)) (k : String)
    (h : l.lookup k = none) : l.tail.lookup k = none := by
  rw [lookup_none_iff] at h ⊢
  intro hmem
  apply h
  obtain ⟨p, hp, hpk⟩ := List.mem_map.mp hmem
  exact List.mem_map.mpr ⟨p, List.mem_of_mem_tail hp, hpk⟩

theorem cacheInv_manage_insert (env : Env) (c : List (String × Tensor)) (k : String)
    (v : Tensor)
    (hN : 1 ≤ env.config.cache_size)
    (hlen : c.length ≤ env.config.cache_size)
    (hnd : (c.map Prod.fst).Nodup)
    (hk : c.lookup k = none) :
    (dictInsert (manage_cache env c) k v).length ≤ env.config.cache_size
    ∧ ((dictInsert (manage_cache env c) k v).map Prod.fst).Nodup := by
  unfold manage_cache
  by_cases hge : env.config.cache_size ≤ c.length
  · rw [if_pos hge]
    have hkt : c.tail.lookup k = none := lookup_tail_none c k hk
    rw [dictInsert_of_lookup_none _ _ _ hkt]
    have hcne : c ≠ [] := by
      intro hnil
      rw [hnil] at hge
      simp at hge
      omega
    constructor
    · rw [List.length_append, List.length_tail]
      have : 1 ≤ c.length := by
        cases c with
        | nil => exact absurd rfl hcne
        | cons p rest => simp
      simp only [List.length_singleton]
      omega
    · rw [List.map_append]
      refine List.Nodup.append ?_ (by simp) ?_
      · exact ((List.tail_sublist c).map Prod.fst).nodup hnd
      · intro x hx hx2
        simp at hx2
        subst hx2
        exact (lookup_none_iff _ _).mp hkt hx
  · rw [if_neg hge]
    rw [dictInsert_of_lookup_none _ _ _ hk]
    constructor
    · rw [List.length_append]
      simp only [List.length_singleton]
      omega
    · rw [List.map_append]
      refine List.Nodup.append hnd (by simp) ?_
      intro x hx hx2
      simp at hx2
      subst hx2
      exact (lookup_none_iff _ _).mp hk hx

theorem load_single_cacheInv (env : Env) (st : St) (n d : String)
    (hN : 1 ≤ env.config.cache_size)
    (hlen : st.cache.length ≤ env.config.cache_size)
    (hnd : (st.cache.map Prod.fst).Nodup) :
    ((load_single env st n d).2).cache.length ≤ env.config.cache_size
    ∧ (((load_single env st n d).2).cache.map Prod.fst).Nodup := by
  unfold load_single
  cases hp : get_voice_path env st n with
  | none => exact ⟨hlen, hnd⟩
  | some path =>
    dsimp only
    cases hu : env.config.use_cache with
    | false => simpa using ⟨hlen, hnd⟩
    | true =>
      rw [if_pos rfl]
      cases hc : st.cache.lookup (cacheKey path d) with
      | some t => exact ⟨hlen, hnd⟩
      | none =>
        dsimp only
        exact cacheInv_manage_insert env st.cache (cacheKey path d) _ hN hlen hnd hc

theorem loadParts_cacheInv (env : Env) (d : String) (hN : 1 ≤ env.config.cache_size) :
    ∀ (voices : List String) (st : St),
      st.cache.length ≤ env.config.cache_size →
      (st.cache.map Prod.fst).Nodup →
      ((loadParts env st voices d).2).cache.length ≤ env.config.cache_size
      ∧ (((loadParts env st voices d).2).cache.map Prod.fst).Nodup := by
  intro voices
  induction voices with
  | nil => intro st h1 h2; exact ⟨h1, h2⟩
  | cons v rest ih =>
    intro st h1 h2
    unfold loadParts
    cases hl : load_single env st v d with
    | mk r1 st1 =>
      have hinv1 : st1.cache.length ≤ env.config.cache_size
          ∧ (st1.cache.map Prod.fst).Nodup := by
        have := load_single_cacheInv env st v d hN h1 h2
        rw [hl] at this
        exact this
      cases r1 with
      | error e => exact hinv1
      | ok t =>
        dsimp only
        cases h2' : loadParts env st1 rest d with
        | mk r2 st2 =>
          have hinv2 := ih st1 hinv1.1 hinv1.2
          rw [h2'] at hinv2
          cases r2 <;> exact hinv2

theorem load_voice_cacheInv (env : Env) (st : St) (n d : String)
    (hN : 1 ≤ env.config.cache_size)
    (hlen : st.cache.length ≤ env.config.cache_size)
    (hnd : (st.cache.map Prod.fst).Nodup) :
    ((load_voice env st n d).2).cache.length ≤ env.config.cache_size
    ∧ (((load_voice env st n d).2).cache.map Prod.fst).Nodup := by
  unfold load_voice
  cases hpc : pycontains n '+' with
  | false => simpa using load_single_cacheInv env st n d hN hlen hnd
  | true =>
    by_cases hl2 : (combinedParts n).length < 2
    · simp only [if_pos rfl, if_pos hl2]
      exact ⟨hlen, hnd⟩
    · rw [if_pos rfl, if_neg hl2]
      cases h : loadParts env st (combinedParts n) d with
      | mk r st1 =>
        have hinv : st1.cache.length ≤ env.config.cache_size
            ∧ (st1.cache.map Prod.fst).Nodup := by
          have := loadParts_cacheInv env d hN (combinedParts n) st hlen hnd
          rw [h] at this
          exact this
        cases r with
        | error e => exact hinv
        | ok ts =>
          dsimp only
          cases stackMean ts <;> exact hinv

theorem accumulate_cacheInv (env : Env) (d : String) (hN : 1 ≤ env.config.cache_size) :
    ∀ (pairs : List (ℚ × String)) (st : St) (nm : String) (ws : Option Tensor) (tw : ℚ),
      st.cache.length ≤ env.config.cache_size →
      (st.cache.map Prod.fst).Nodup →
      ((accumulate env st pairs d nm ws tw).2).cache.length ≤ env.config.cache_size
      ∧ (((accumulate env st pairs d nm ws tw).2).cache.map Prod.fst).Nodup := by
  intro pairs
  induction pairs with
  | nil => intro st nm ws tw h1 h2; exact ⟨h1, h2⟩
  | cons p rest ih =>
    intro st nm ws tw h1 h2
    unfold accumulate
    cases hl : load_voice env st p.2 d with
    | mk r1 st1 =>
      have hinv1 : st1.cache.length ≤ env.config.cache_size
          ∧ (st1.cache.map Prod.fst).Nodup := by
        have := load_voice_cacheInv env st p.2 d hN h1 h2
        rw [hl] at this
        exact this
      cases r1 with
      | error e => exact hinv1
      | ok t =>
        dsimp only
        cases ws with
        | none => exact ih st1 _ _ _ hinv1.1 hinv1.2
        | some w =>
          dsimp only
          by_cases hlen2 : w.length = t.length
          · rw [if_pos hlen2]
            exact ih st1 _ _ _ hinv1.1 hinv1.2
          · rw [if_neg hlen2]
            exact hinv1

theorem create_weighted_voice_cacheInv (env : Env) (st : St) (formula device : String)
    (normalize : Bool)
    (hN : 1 ≤ env.config.cache_size)
    (hlen : st.cache.length ≤ env.config.cache_size)
    (hnd : (st.cache.map Prod.fst).Nodup) :
    ((create_weighted_voice env st formula normalize device).2).cache.length
      ≤ env.config.cache_size
    ∧ (((create_weighted_voice env st formula normalize device).2).cache.map
        Prod.fst).Nodup := by
  unfold create_weighted_voice
  cases hp : parse_voice_formula formula with
  | error e => exact ⟨hlen, hnd⟩
  | ok pairs =>
    dsimp only
    cases hf : pairs.find? (fun p => p.1 ≤ 0) with
    | some p => exact ⟨hlen, hnd⟩
    | none =>
      dsimp only
      cases hpe : pairs.isEmpty with
      | true => simp only [if_pos rfl]; exact ⟨hlen, hnd⟩
      | false =>
        simp only [Bool.false_eq_true, if_false]
        cases ha : accumulate env st pairs device "" none 0 with
        | mk r st1 =>
          have hinv : st1.cache.length ≤ env.config.cache_size
              ∧ (st1.cache.map Prod.fst).Nodup := by
            have := accumulate_cacheInv env device hN pairs st "" none 0 hlen hnd
            rw [ha] at this
            exact this
          cases r with
          | error e => exact hinv
          | ok res =>
            obtain ⟨cn, ws, tw⟩ := res
            dsimp only
            cases ws with
            | none => exact hinv
            | some w =>
              dsimp only
              cases hs : env.settings.allow_local_voice_saving with
              | false => simpa using hinv
              | true =>
                rw [if_pos rfl]
                cases hsf : env.save_fails with
                | true => rw [if_pos rfl]; exact hinv
                | false => simp only [Bool.false_eq_true, if_false]; exact hinv

/-- Counterexample for C2 as stated: with capacity 1 and one entry already
cached (after loading `a`), a successful `combine_voices ["a", "b"]` inserts
the combined tensor with a plain dict assignment — no `_manage_cache` call —
leaving the cache with 2 entries, exceeding the configured capacity. -/
theorem c2_capacity_counterexample :
    envTiny.config.cache_size = 1
    ∧ ((combine_voices envTiny ((load_voice envTiny stTwoVoices "a" "cpu").2)
        ["a", "b"] "cpu").2).cache.length = 2 := by
  refine ⟨rfl, ?_⟩
  decide

/-- Claim C2 (amended): after `load_voice` and after `create_weighted_voice`
the cache invariant holds — at most `cache_size` entries (capacity at least 1)
and pairwise-distinct keys, so every key maps to exactly one live tensor; the
invariant is preserved from any state satisfying it. (`combine_voices` with
saving enabled is the exception: it inserts the combined entry without any
eviction check and can leave the cache one entry over capacity, as
`c2_capacity_counterexample` shows.) -/
theorem c2_cache_invariant (env : Env) (st : St) (voice_name formula device : String)
    (normalize : Bool)
    (hN : 1 ≤ env.config.cache_size)
    (hlen : st.cache.length ≤ env.config.cache_size)
    (hnd : (st.cache.map Prod.fst).Nodup) :
    (((load_voice env st voice_name device).2).cache.length ≤ env.config.cache_size
      ∧ (((load_voice env st voice_name device).2).cache.map Prod.fst).Nodup)
    ∧ (((create_weighted_voice env st formula normalize device).2).cache.length
        ≤ env.config.cache_size
      ∧ (((create_weighted_voice env st formula normalize device).2).cache.map
          Prod.fst).Nodup) :=
  ⟨load_voice_cacheInv env st voice_name device hN hlen hnd,
   create_weighted_voice_cacheInv env st formula device normalize hN hlen hnd⟩

/-- Witness for C2 (amended): loading `b` into a one-entry cache and running a
single-pair weighted combination both keep the invariant. -/
theorem c2_cache_invariant_witness :
    (((load_voice envBig stCached "b" "cpu").2).cache.length ≤ envBig.config.cache_size
      ∧ (((load_voice envBig stCached "b" "cpu").2).cache.map Prod.fst).Nodup)
    ∧ (((create_weighted_voice envBig stCached "1 * a" false "cpu").2).cache.length
        ≤ envBig.config.cache_size
      ∧ (((create_weighted_voice envBig stCached "1 * a" false "cpu").2).cache.map
          Prod.fst).Nodup) :=
  c2_cache_invariant envBig stCached "b" "1 * a" "cpu" false (by decide) (by decide)
    (by decide)

/-! Lemmas for C1: FIFO eviction over a sequence of distinct single-voice loads. -/

theorem load_voice_single (env : Env) (st : St) (n device : String)
    (h : pycontains n '+' = false) :
    load_voice env st n device = load_single env st n device := by
  unfold load_voice
  rw [h]
  simp

theorem load_single_step (env : Env) (st : St) (n d : String) (t : Tensor)
    (hc : env.config.use_cache = true)
    (hs : st.storage.lookup n = some t)
    (hm : st.cache.lookup (skey env d n) = none) :
    load_single env st n d =
      (.ok t,
        { st with
          loadCount := st.loadCount + 1,
          cache := dictInsert (manage_cache env st.cache) (skey env d n) t }) := by
  have hm2 : st.cache.lookup (cacheKey (voicePath env.settings n) d) = none := hm
  unfold load_single get_voice_path
  rw [hs]
  dsimp only
  rw [hc, if_pos rfl, hm2]
  dsimp only
  rfl

theorem loadSeq_cons (env : Env) (st : St) (n : String) (rest : List String)
    (device : String) :
    loadSeq env st (n :: rest) device =
      loadSeq env ((load_voice env st n device).2) rest device := rfl

theorem loadSeq_append (env : Env) (st : St) (xs ys : List String) (device : String) :
    loadSeq env st (xs ++ ys) device = loadSeq env (loadSeq env st xs device) ys device := by
  unfold loadSeq
  exact List.foldl_append _ _ _ _

theorem skey_injective (env : Env) (device : String) :
    Function.Injective (skey env device) := by
  intro a b h
  unfold skey cacheKey voicePath at h
  have hd := congrArg String.data h
  simp only [String.data_append, List.append_assoc] at hd
  have h1 := List.append_cancel_left hd
  have h2 := List.append_cancel_left h1
  have h3 : a.data = b.data := by
    rw [← List.append_assoc, ← List.append_assoc] at h2
    rw [← List.append_assoc, ← List.append_assoc] at h2
    exact List.append_cancel_right
      (List.append_cancel_right (List.append_cancel_right h2))
  exact String.ext h3

theorem loadSeq_fill (env : Env) (device : String) (hc : env.config.use_cache = true) :
    ∀ (names : List String) (st : St),
      (∀ n ∈ names, pycontains n '+' = false) →
      (∀ n ∈ names, (st.storage.lookup n).isSome) →
      (∀ n ∈ names, st.cache.lookup (skey env device n) = none) →
      (names.map (skey env device)).Nodup →
      st.cache.length + names.length ≤ env.config.cache_size →
      (loadSeq env st names device).cache =
        st.cache ++ names.map
          (fun n => (skey env device n, (st.storage.lookup n).getD []))
      ∧ (loadSeq env st names device).storage = st.storage := by
  intro names
  induction names with
  | nil => intro st _ _ _ _ _; exact ⟨by simp [loadSeq], rfl⟩
  | cons n rest ih =>
    intro st hplus hstore hfresh hknd hcap
    obtain ⟨t, hst⟩ := Option.isSome_iff_exists.mp (hstore n (by simp))
    have hnoev : manage_cache env st.cache = st.cache := by
      unfold manage_cache
      rw [if_neg (by simp at hcap; omega)]
    have hstep : load_voice env st n device =
        (.ok t,
          { st with
            loadCount := st.loadCount + 1,
            cache := st.cache ++ [(skey env device n, t)] }) := by
      rw [load_voice_single env st n device (hplus n (by simp))]
      rw [load_single_step env st n device t hc hst (hfresh n (by simp))]
      rw [hnoev, dictInsert_of_lookup_none _ _ _ (hfresh n (by simp))]
    rw [loadSeq_cons, hstep]
    have hrest := ih
      { st with
        loadCount := st.loadCount + 1,
        cache := st.cache ++ [(skey env device n, t)] }
      (fun m hm => hplus m (by simp [hm]))
      (fun m hm => hstore m (by simp [hm]))
      (fun m hm => by
        have hm1 : st.cache.lookup (skey env device m) = none :=
          hfresh m (by simp [hm])
        have hne : (skey env device m == skey env device n) = false := by
          rw [beq_eq_false_iff_ne]
          intro heq
          have hmn : m = n := skey_injective env device heq
          subst hmn
          have := (List.nodup_cons.mp hknd).1
          exact this (List.mem_map.mpr ⟨m, hm, rfl⟩)
        show (st.cache ++ [(skey env device n, t)]).lookup (skey env device m) = none
        rw [lookup_append_left_none _ _ _ hm1]
        simp [List.lookup, hne]
      )
      ((List.nodup_cons.mp (by simpa using hknd)).2)
      (by simp at hcap ⊢; omega)
    obtain ⟨hcache, hstorage⟩ := hrest
    refine ⟨?_, hstorage⟩
    rw [hcache, List.append_assoc, List.singleton_append]
    rw [show List.map (fun m => (skey env device m, (List.lookup m st.storage).getD []))
        (n :: rest) =
      (skey env device n, (List.lookup n st.storage).getD []) ::
        List.map (fun m => (skey env device m, (List.lookup m st.storage).getD []))
          rest from rfl]
    rw [hst]
    rfl

/-- Claim C1: with caching enabled and capacity `N ≥ 1`, loading `N + 1`
distinct single voices (`first :: mid` of length `N`, then `lastV`) into an
initially empty cache: (i) after each of the first `k ≤ N` loads the cache
holds exactly the first `k` entries in insertion order — in particular the
first-loaded entry is present, so it is not evicted before; (ii) the
`(N + 1)`th load evicts exactly the insertion-oldest entry, leaving the later
`N` entries plus the new one; (iii) the first-loaded key is absent afterward;
(iv) `_manage_cache` at capacity always deletes the insertion-oldest entry,
whatever the cache contents — independent of how recently an entry was
requested, since a cache hit does not reorder (`load_voice` returns the state
unchanged on a hit). -/
theorem c1_fifo_eviction (env : Env) (st0 : St) (device first lastV : String)
    (mid : List String)
    (hc : env.config.use_cache = true)
    (_hN : 1 ≤ env.config.cache_size)
    (hcap : (first :: mid).length = env.config.cache_size)
    (hplus : ∀ n ∈ (first :: mid) ++ [lastV], pycontains n '+' = false)
    (hstore : ∀ n ∈ (first :: mid) ++ [lastV], (st0.storage.lookup n).isSome)
    (hnodup : ((first :: mid) ++ [lastV]).Nodup)
    (hc0 : st0.cache = []) :
    (∀ k, k ≤ env.config.cache_size →
      (loadSeq env st0 ((first :: mid).take k) device).cache =
        ((first :: mid).take k).map
          (fun n => (skey env device n, (st0.storage.lookup n).getD [])))
    ∧ (loadSeq env st0 ((first :: mid) ++ [lastV]) device).cache =
        (mid ++ [lastV]).map
          (fun n => (skey env device n, (st0.storage.lookup n).getD []))
    ∧ (loadSeq env st0 ((first :: mid) ++ [lastV]) device).cache.lookup
        (skey env device first) = none
    ∧ (∀ c : List (String × Tensor), env.config.cache_size ≤ c.length →
        manage_cache env c = c.tail) := by
  have hknd : (((first :: mid) ++ [lastV]).map (skey env device)).Nodup :=
    List.Nodup.map (skey_injective env device) hnodup
  have hkndFM : ((first :: mid).map (skey env device)).Nodup := by
    rw [List.map_append] at hknd
    exact (List.nodup_append.mp hknd).1
  have hlastNotFM : skey env device lastV ∉ (first :: mid).map (skey env device) := by
    rw [List.map_append] at hknd
    have hdisj := (List.nodup_append.mp hknd).2.2
    intro hmem
    exact hdisj hmem (by simp)
  -- (i): the first N loads fill the cache in insertion order, no eviction.
  have part1 : ∀ k, k ≤ env.config.cache_size →
      (loadSeq env st0 ((first :: mid).take k) device).cache =
        ((first :: mid).take k).map
          (fun n => (skey env device n, (st0.storage.lookup n).getD [])) := by
    intro k hk
    have hfill := loadSeq_fill env device hc ((first :: mid).take k) st0
      (fun m hm => hplus m (List.mem_append_left _ (List.mem_of_mem_take hm)))
      (fun m hm => hstore m (List.mem_append_left _ (List.mem_of_mem_take hm)))
      (fun m _ => by rw [hc0]; rfl)
      (by
        rw [List.map_take]
        exact ((List.take_sublist k _).nodup hkndFM))
      (by
        rw [hc0, List.length_take]
        simp
        omega)
    rw [hfill.1, hc0, List.nil_append]
  -- the state after the first N loads
  have hfillFM := loadSeq_fill env device hc (first :: mid) st0
    (fun m hm => hplus m (List.mem_append_left _ hm))
    (fun m hm => hstore m (List.mem_append_left _ hm))
    (fun m _ => by rw [hc0]; rfl)
    hkndFM
    (by rw [hc0]; simp [hcap])
  have hcacheFM : (loadSeq env st0 (first :: mid) device).cache =
      (first :: mid).map
        (fun n => (skey env device n, (st0.storage.lookup n).getD [])) := by
    rw [hfillFM.1, hc0, List.nil_append]
  have hstorFM : (loadSeq env st0 (first :: mid) device).storage = st0.storage :=
    hfillFM.2
  have hkeysFM : ((loadSeq env st0 (first :: mid) device).cache.map Prod.fst) =
      (first :: mid).map (skey env device) := by
    rw [hcacheFM, List.map_map]
    rfl
  obtain ⟨tL, hstL⟩ := Option.isSome_iff_exists.mp (hstore lastV (by simp))
  have hsL : (loadSeq env st0 (first :: mid) device).storage.lookup lastV = some tL := by
    rw [hstorFM]
    exact hstL
  have hmL : (loadSeq env st0 (first :: mid) device).cache.lookup
      (skey env device lastV) = none := by
    rw [lookup_none_iff, hkeysFM]
    exact hlastNotFM
  have hstep : load_voice env (loadSeq env st0 (first :: mid) device) lastV device =
      (.ok tL,
        { loadSeq env st0 (first :: mid) device with
          loadCount := (loadSeq env st0 (first :: mid) device).loadCount + 1,
          cache := dictInsert
            (manage_cache env (loadSeq env st0 (first :: mid) device).cache)
            (skey env device lastV) tL }) := by
    rw [load_voice_single env _ lastV device (hplus lastV (by simp))]
    exact load_single_step env _ lastV device tL hc hsL hmL
  have hmanage : manage_cache env (loadSeq env st0 (first :: mid) device).cache =
      mid.map (fun n => (skey env device n, (st0.storage.lookup n).getD [])) := by
    unfold manage_cache
    rw [if_pos (by rw [hcacheFM]; simp [← hcap])]
    rw [hcacheFM]
    rfl
  have hmidfresh : (mid.map
      (fun n => (skey env device n, (st0.storage.lookup n).getD []))).lookup
      (skey env device lastV) = none := by
    rw [lookup_none_iff, List.map_map]
    intro hmem
    apply hlastNotFM
    have : (Prod.fst ∘ fun n => (skey env device n, (st0.storage.lookup n).getD []))
        = skey env device := rfl
    rw [this] at hmem
    obtain ⟨m, hm, hmk⟩ := List.mem_map.mp hmem
    exact List.mem_map.mpr ⟨m, by simp [hm], hmk⟩
  have part2 : (loadSeq env st0 ((first :: mid) ++ [lastV]) device).cache =
      (mid ++ [lastV]).map
        (fun n => (skey env device n, (st0.storage.lookup n).getD [])) := by
    rw [loadSeq_append, loadSeq_cons, hstep]
    show (dictInsert
      (manage_cache env (loadSeq env st0 (first :: mid) device).cache)
      (skey env device lastV) tL) =
      (mid ++ [lastV]).map (fun n => (skey env device n, (st0.storage.lookup n).getD []))
    rw [hmanage, dictInsert_of_lookup_none _ _ _ hmidfresh]
    rw [List.map_append]
    congr 1
    simp [hstL]
  refine ⟨part1, part2, ?_, ?_⟩
  · rw [part2, lookup_none_iff, List.map_map]
    have hcomp : (Prod.fst ∘ fun n => (skey env device n, (st0.storage.lookup n).getD []))
        = skey env device := rfl
    rw [hcomp]
    have hknd2 : (skey env device first ::
        (mid ++ [lastV]).map (skey env device)).Nodup := by
      have : ((first :: mid) ++ [lastV]).map (skey env device) =
          skey env device first :: (mid ++ [lastV]).map (skey env device) := by
        simp
      rw [this] at hknd
      exact hknd
    exact (List.nodup_cons.mp hknd2).1
  · intro c hge
    unfold manage_cache
    rw [if_pos hge]

/-- Witness for C1: capacity 1, loading `a` then `b` — after loading `a` the
cache is exactly the `a` entry; loading `b` evicts `a`, whose key is then
absent. -/
theorem c1_fifo_eviction_witness :
    (∀ k, k ≤ envTiny.config.cache_size →
      (loadSeq envTiny stTwoVoices (["a"].take k) "cpu").cache =
        (["a"].take k).map
          (fun n => (skey envTiny "cpu" n, (stTwoVoices.storage.lookup n).getD [])))
    ∧ (loadSeq envTiny stTwoVoices (["a"] ++ ["b"]) "cpu").cache =
        (([] : List String) ++ ["b"]).map
          (fun n => (skey envTiny "cpu" n, (stTwoVoices.storage.lookup n).getD []))
    ∧ (loadSeq envTiny stTwoVoices (["a"] ++ ["b"]) "cpu").cache.lookup
        (skey envTiny "cpu" "a") = none
    ∧ (∀ c : List (String × Tensor), envTiny.config.cache_size ≤ c.length →
        manage_cache envTiny c = c.tail) :=
  c1_fifo_eviction envTiny stTwoVoices "cpu" "a" "b" [] rfl (by decide) (by decide)
    (by decide) (by decide) (by decide) rfl

end VoiceMgr
